import Mathlib

/-!
Verification of the kapy native library (src/lib) against its specification.

The C sources are shallowly embedded:
* `src/lib/stream.c` — the growable in-memory buffer stream (`BufStream`), in two
  models: a pure value model (`Kapy.BufStream`) for the state-transformer claims,
  and a heap model (`Kapy.PtrModel`) that makes pointer identity and aliasing
  explicit for the ownership claims.
* `src/lib/add_gps.c` — `native_add_gps_info`, embedded over the heap model with
  the external gexiv2 codec abstracted as a behaviour record.
* `src/lib/exif.cpp` — the GPS tag encoder `s_try_update_gps_info` (over `ℚ`)
  and the tag lookup `exif_get_tag_string`.

Machine integers: `size_t` is modelled as `Nat` with explicit `% 2^64` wherever
the C arithmetic can wrap; `gint32` values are `Int` with explicit truncating
reinterpretations.
-/

set_option linter.unusedVariables false

namespace Kapy

/-- 2 ^ 64, the modulus of `size_t` arithmetic on the target platform. -/
def SZMOD : Nat := 2 ^ 64

/-- Wrap-around `size_t` subtraction `a - b` (arguments assumed `< SZMOD`). -/
def subSz (a b : Nat) : Nat := (SZMOD + a - b) % SZMOD

/-- Wrap-around `size_t` addition. -/
def addSz (a b : Nat) : Nat := (a + b) % SZMOD

/-- The C cast `(size_t) v` of a signed 64-bit value `v` (two's complement wrap). -/
def szOfInt (i : Int) : Nat := (i % (SZMOD : Int)).toNat

/-- The C cast `(gint32) n` of a `size_t` value `n` (truncate to 32 bits, then
reinterpret as two's complement). -/
def toInt32 (n : Nat) : Int :=
  if n % 2 ^ 32 < 2 ^ 31 then ((n % 2 ^ 32 : Nat) : Int)
  else ((n % 2 ^ 32 : Nat) : Int) - 2 ^ 32

/-- Model of `memcpy(dst + pos, src, src.length)`: overwrite `src.length` bytes
of `dst` starting at `pos`. -/
def memcpyAt (dst : List Nat) (pos : Nat) (src : List Nat) : List Nat :=
  dst.take pos ++ src ++ dst.drop (pos + src.length)

/-- The `struct _BufStream` of `src/lib/stream.h`: `buf` holds the contents of
the malloc'd block (so `buf.length` is the allocated block size), `curr` is the
cursor, `length` the logical length, `capacity` the recorded allocation size.
`moved` only affects `free` calls, which the pure model does not track. -/
structure BufStream where
  buf : List Nat
  curr : Nat
  length : Nat
  capacity : Nat
  incr_count : Nat
deriving DecidableEq, Repr

/-- Well-formedness of a stream state: the recorded capacity is the real block
size and cursor and length are inside the allocation.  These hold for streams
built by the constructors and kept inside their allocation. -/
def WF (s : BufStream) : Prop :=
  s.buf.length = s.capacity ∧ s.curr ≤ s.capacity ∧ s.length ≤ s.capacity

instance (s : BufStream) : Decidable (WF s) := by
  unfold WF; infer_instance

/-- Embedding of `s_buf_stream_incr` (`src/lib/stream.c:184-203`): grow the
block to `(size_t)((double)capacity * 1.2)`, copy the first `length` bytes,
zero the rest, bump `incr_count`.  The double computation `(size_t)(c * 1.2)`
equals `c * 6 / 5` (floor) for every capacity below 2^50: the IEEE-754 double
nearest to 1.2 is 1.2 - 2^-54.4…, so the product misses `c * 6 / 5` by less
than one ulp, far less than the gap of 1/5 separating it from the next integer
when `5 ∤ c`, and when `5 ∣ c` the exact integer product rounds to itself.
The `free(old_buf)` guarded by `incr_count > 0` has no effect on values; the
heap model below tracks it. -/
def s_buf_stream_incr (s : BufStream) : BufStream :=
  let len := s.length
  let new_capacity := s.capacity * 6 / 5
  { s with
    buf := s.buf.take len ++ List.replicate (new_capacity - len) 0,
    capacity := new_capacity,
    incr_count := s.incr_count + 1 }

/-- The `do { remained = capacity - curr; if (count > remained) incr else break }`
loop at the head of `buf_stream_write` (`src/lib/stream.c:136-143`), with
explicit fuel since the C loop need not terminate; `none` means the fuel ran
out before the loop exited. -/
def growLoop : Nat → BufStream → Nat → Option BufStream
  | 0, _, _ => none
  | fuel + 1, s, count =>
      if subSz s.capacity s.curr < count then
        growLoop fuel (s_buf_stream_incr s) count
      else
        some s

/-- Embedding of `buf_stream_write` (`src/lib/stream.c:130-151`).  The C source
bytes `buffer + offset … buffer + offset + count` are passed as the list `src`
(`count = src.length`; the claims only involve non-negative `gint32` counts,
for which the `(size_t) count` cast is the identity).  After the growth loop:
`new_len = curr + count`, copy, `length = new_len`, `curr += count`. -/
def buf_stream_write (fuel : Nat) (s : BufStream) (src : List Nat) : Option BufStream :=
  match growLoop fuel s src.length with
  | none => none
  | some s1 =>
      some { s1 with
              buf := memcpyAt s1.buf s1.curr src,
              length := addSz s1.curr src.length,
              curr := addSz s1.curr src.length }

/-- Embedding of `buf_stream_read` (`src/lib/stream.c:106-128`): EOF check,
`remained = length - curr`, `copying = ((gint32)remained >= count) ? count :
(gint32)remained`, copy into the destination at `offset`, advance the cursor by
`(size_t) copying`, return `copying`. -/
def buf_stream_read (s : BufStream) (dest : List Nat) (offset : Nat) (count : Int) :
    BufStream × List Nat × Int :=
  if s.length ≤ s.curr then
    (s, dest, 0)
  else
    let remained := subSz s.length s.curr
    let copying : Int := if count ≤ toInt32 remained then count else toInt32 remained
    let bytes := (s.buf.drop s.curr).take (szOfInt copying)
    ({ s with curr := addSz s.curr (szOfInt copying) },
     memcpyAt dest offset bytes,
     copying)

/-- The `WrapperSeekOrigin` enumeration of the gexiv2 stream contract. -/
inductive WrapperSeekOrigin where
  | Begin
  | Current
  | End
deriving DecidableEq, Repr

/-- Embedding of `buf_stream_seek` (`src/lib/stream.c:153-169`):
Begin: `curr = (size_t) offset`; Current: `curr += (size_t) offset`;
End: `curr -= (size_t) offset`.  Only the cursor changes. -/
def buf_stream_seek (s : BufStream) (offset : Int) (origin : WrapperSeekOrigin) : BufStream :=
  match origin with
  | .Begin => { s with curr := szOfInt offset }
  | .Current => { s with curr := addSz s.curr (szOfInt offset) }
  | .End => { s with curr := subSz s.curr (szOfInt offset) }

/-- Embedding of the stream state built by `buf_stream_new_empty`
(`src/lib/stream.c:35-63`): a malloc'd block of `initial_size` bytes with
indeterminate contents (passed here explicitly as `junk`), zeroed struct
fields, `length = 0`, `capacity = initial_size`. -/
def buf_stream_new_empty (junk : List Nat) : BufStream :=
  { buf := junk, curr := 0, length := 0, capacity := junk.length, incr_count := 0 }

namespace PtrModel

/-- A pointer value: the caller's blob, or the i-th heap allocation made during
the run. -/
inductive Ptr where
  | caller : Ptr
  | heap : Nat → Ptr
deriving DecidableEq, Repr

/-- The memory the stream code touches: the caller's byte blob plus the
chronological list of heap blocks (`none` marks a freed block).  `callerFreed`
records a `free` of the caller's pointer. -/
structure Mem where
  caller : List Nat
  blocks : List (Option (List Nat))
  callerFreed : Bool
deriving DecidableEq, Repr

/-- Dereference a pointer (a freed or out-of-range block reads as `[]`). -/
def Mem.get (m : Mem) : Ptr → List Nat
  | .caller => m.caller
  | .heap i => (m.blocks.getD i none).getD []

/-- Overwrite the block a pointer denotes. -/
def Mem.set (m : Mem) (p : Ptr) (v : List Nat) : Mem :=
  match p with
  | .caller => { m with caller := v }
  | .heap i => { m with blocks := m.blocks.set i (some v) }

/-- `malloc` + initialisation with the given contents. -/
def Mem.alloc (m : Mem) (v : List Nat) : Mem × Ptr :=
  ({ m with blocks := m.blocks ++ [some v] }, .heap m.blocks.length)

/-- `free`. -/
def Mem.free (m : Mem) : Ptr → Mem
  | .caller => { m with callerFreed := true }
  | .heap i => { m with blocks := m.blocks.set i none }

/-- The `struct _BufStream`, with the storage now a pointer into `Mem`. -/
structure PBufStream where
  bufPtr : Ptr
  curr : Nat
  length : Nat
  capacity : Nat
  moved : Nat
  incr_count : Nat
deriving DecidableEq, Repr

/-- Embedding of `s_buf_stream_new` (`src/lib/stream.c:205-218`).  The C
malloc's the struct without a memset, so `curr`, `moved` and `incr_count` are
indeterminate: they are passed in explicitly.  It malloc's `new_buf`, memcpy's
the first `buf_len` caller bytes into it — and then stores the CALLER's
pointer `buf` in `stream->buf` (line 213), leaking the fresh copy. -/
def s_buf_stream_new (m : Mem) (buf : Ptr) (buf_len : Nat)
    (curr0 incr0 moved0 : Nat) : Mem × PBufStream :=
  let copied := (m.get buf).take buf_len
  let am := m.alloc copied
  (am.1,
   { bufPtr := buf, curr := curr0, length := buf_len, capacity := buf_len,
     moved := moved0, incr_count := incr0 })

/-- Heap version of `s_buf_stream_incr` (`src/lib/stream.c:184-203`), including
the `free(old_buf)` that fires once `incr_count > 0`. -/
def s_buf_stream_incr (m : Mem) (s : PBufStream) : Mem × PBufStream :=
  let len := s.length
  let old_buf := s.bufPtr
  let new_capacity := s.capacity * 6 / 5
  let content := (m.get old_buf).take len ++ List.replicate (new_capacity - len) 0
  let am := m.alloc content
  let m2 := if 0 < s.incr_count then am.1.free old_buf else am.1
  (m2, { s with bufPtr := am.2, capacity := new_capacity, incr_count := s.incr_count + 1 })

/-- Heap version of the growth loop of `buf_stream_write`. -/
def growLoop : Nat → Mem → PBufStream → Nat → Option (Mem × PBufStream)
  | 0, _, _, _ => none
  | fuel + 1, m, s, count =>
      if subSz s.capacity s.curr < count then
        let ms := s_buf_stream_incr m s
        growLoop fuel ms.1 ms.2 count
      else
        some (m, s)

/-- Heap version of `buf_stream_write` (`src/lib/stream.c:130-151`): the copy
goes to whatever block `bufPtr` denotes — the caller's blob itself when the
stream came from `s_buf_stream_new` and no growth has happened yet. -/
def buf_stream_write (fuel : Nat) (m : Mem) (s : PBufStream) (src : List Nat) :
    Option (Mem × PBufStream) :=
  match growLoop fuel m s src.length with
  | none => none
  | some ms =>
      some (ms.1.set ms.2.bufPtr (memcpyAt (ms.1.get ms.2.bufPtr) ms.2.curr src),
            { ms.2 with
                length := addSz ms.2.curr src.length,
                curr := addSz ms.2.curr src.length })

/-- Heap version of `buf_stream_seek` (cursor arithmetic only). -/
def buf_stream_seek (s : PBufStream) (offset : Int) (origin : WrapperSeekOrigin) :
    PBufStream :=
  match origin with
  | .Begin => { s with curr := szOfInt offset }
  | .Current => { s with curr := addSz s.curr (szOfInt offset) }
  | .End => { s with curr := subSz s.curr (szOfInt offset) }

/-- Embedding of `buf_stream_get_data` (`src/lib/stream.c:176-182`): marks the
stream moved and hands out the storage pointer and logical length. -/
def buf_stream_get_data (s : PBufStream) : PBufStream × Ptr × Nat :=
  ({ s with moved := 1 }, s.bufPtr, s.length)

/-- Embedding of `s_buf_stream_free` (`src/lib/stream.c:220-224`): frees the
storage only when the stream grew at least once and was not moved out. -/
def s_buf_stream_free (m : Mem) (s : PBufStream) : Mem :=
  if 0 < s.incr_count ∧ s.moved ≠ 1 then m.free s.bufPtr else m

/-- One call the external codec makes through the stream callback table while
saving (`gexiv2_metadata_save_stream` sees exactly the Write/Seek/Read/...
entries installed by `buf_stream_new`). -/
inductive StreamAct where
  | write (data : List Nat)
  | seek (offset : Int) (origin : WrapperSeekOrigin)
deriving Repr

/-- Run a sequence of codec stream calls. `none` = a write's growth loop ran
out of fuel (the C loop does not terminate). -/
def runActs (fuel : Nat) : Mem → PBufStream → List StreamAct → Option (Mem × PBufStream)
  | m, s, [] => some (m, s)
  | m, s, .write data :: rest =>
      match buf_stream_write fuel m s data with
      | none => none
      | some ms => runActs fuel ms.1 ms.2 rest
  | m, s, .seek off origin :: rest => runActs fuel m (buf_stream_seek s off origin) rest

/-- Abstract behaviour of the external gexiv2 codec during one
`native_add_gps_info` call: whether `gexiv2_metadata_open_buf` and
`gexiv2_metadata_try_set_gps_info` succeed, the stream calls the save makes,
and whether the save then reports success. -/
structure Codec where
  openOk : Bool
  setOk : Bool
  saveActs : List StreamAct
  saveOk : Bool

/-- Embedding of `native_add_gps_info` (`src/lib/add_gps.c:6-51`) over the
heap model, the codec abstracted as a `Codec` behaviour.  Returns
`some (final memory, returned length, final *out_blob)`; the third component
is `none` when `*out_blob` was never assigned.  `curr0`, `incr0`, `moved0` are
the indeterminate struct fields of `s_buf_stream_new`. -/
def native_add_gps_info (fuel : Nat) (m : Mem) (blob : Ptr) (blob_len : Nat)
    (curr0 incr0 moved0 : Nat) (codec : Codec) : Option (Mem × Nat × Option Ptr) :=
  if codec.openOk = false then some (m, 0, none)
  else if codec.setOk = false then some (m, 0, none)
  else
    let ms := s_buf_stream_new m blob blob_len curr0 incr0 moved0
    match runActs fuel ms.1 ms.2 codec.saveActs with
    | none => none
    | some ms2 =>
        if codec.saveOk = false then
          some (s_buf_stream_free ms2.1 ms2.2, 0, none)
        else
          let gd := buf_stream_get_data ms2.2
          some (s_buf_stream_free ms2.1 gd.1, gd.2.2, some gd.2.1)

end PtrModel

/-- Degrees part of the DMS decomposition in `s_try_update_gps_info`
(`src/lib/exif.cpp:294-301`): `modf(a, &whole)` splits a non-negative `a` into
integer part `whole = ⌊a⌋` and fraction; `deg = (int) floor(whole) = ⌊a⌋`. -/
def gpsDeg (a : ℚ) : Int := ⌊a⌋

/-- Minutes part: the fraction of `a` times 60, floored
(`remainder = modf(fabs(remainder * 60), &whole); min = (int) floor(whole)`;
the inner `fabs` is the identity since the fraction is non-negative). -/
def gpsMin (a : ℚ) : Int := ⌊(a - ⌊a⌋) * 60⌋

/-- Seconds numerator: the remaining fraction times `60 * 1000000`, floored
(`sec = (int) floor(remainder * 60 * denom)` with `denom = 1000000`). -/
def gpsSec (a : ℚ) : Int := ⌊((a - ⌊a⌋) * 60 - ⌊(a - ⌊a⌋) * 60⌋) * 60 * 1000000⌋

/-- The GPS tag values written by `s_try_update_gps_info`
(`src/lib/exif.cpp:263-330`).  `version = none` models "key already present,
left untouched".  `altAbs` is the value `fabs(alt)` handed to the external
`Exiv2::floatToRationalCast`; the DMS triples are the integers printed into
the `"deg/1 min/1 sec/1000000"` tag strings. -/
structure GpsTags where
  version : Option String
  format : String
  altRef : String
  altAbs : ℚ
  latRef : String
  latDeg : Int
  latMin : Int
  latSec : Int
  lonRef : String
  lonDeg : Int
  lonMin : Int
  lonSec : Int
deriving DecidableEq, Repr

/-- Embedding of `s_try_update_gps_info` (`src/lib/exif.cpp:263-330`), the GPS
encoder, over exact rationals (the C doubles' comparisons with 0.0 and `fabs`
are sign-exact, so the reference-selection and abs-dependence facts proved
below transfer verbatim).  `hasVersion` says whether
`Exif.GPSInfo.GPSVersionID` was already present (`findKey` hit). -/
def s_try_update_gps_info (hasVersion : Bool) (lat lon alt : ℚ) : GpsTags :=
  { version := if hasVersion then none else some "2 0 0 0"
    format := "WGS-84"
    altRef := if alt < 0 then "1" else "0"
    altAbs := |alt|
    latRef := if lat < 0 then "S" else "N"
    latDeg := gpsDeg |lat|
    latMin := gpsMin |lat|
    latSec := gpsSec |lat|
    lonRef := if lon < 0 then "W" else "E"
    lonDeg := gpsDeg |lon|
    lonMin := gpsMin |lon|
    lonSec := gpsSec |lon| }

/-- The value of `exifData[tag].toString()` / `xmpData[tag].toString()` for a
metadata dictionary modelled as an ordered key/value list: Exiv2's
`operator[]` is `std::map`-like — when the (well-formed) key is absent it
inserts a fresh value-less datum, and `Metadatum::toString()` of a value-less
datum is the empty string. -/
def indexToString (data : List (String × String)) (tag : String) : String :=
  match data.find? (fun kv => kv.1 = tag) with
  | some kv => kv.2
  | none => ""

/-- Embedding of `exif_get_tag_string` (`src/lib/exif.cpp:66-102`).  `image`
is `none` when `self`, `self->priv` or the image handle is null.  An image is
a pair (XMP dictionary, EXIF dictionary).  `validKey` models the `Exiv2` key
parse inside `operator[]`: an ill-formed key throws, the catch returns null.
The branch order mirrors the C: null checks, `strncmp("Xmp.", tag, 4)`,
dictionary-empty check, then `operator[].toString()`. -/
def exif_get_tag_string (image : Option (List (String × String) × List (String × String)))
    (validKey : String → Bool) (tag : String) : Option String :=
  match image with
  | none => none
  | some xe =>
      if tag.data.take 4 = "Xmp.".data then
        if xe.1.isEmpty then none
        else if validKey tag then some (indexToString xe.1 tag) else none
      else
        if xe.2.isEmpty then none
        else if validKey tag then some (indexToString xe.2 tag) else none

/-! ### Arithmetic and list helper lemmas -/

theorem subSz_eq_of_le {a b : Nat} (hba : b ≤ a) (ha : a < SZMOD) : subSz a b = a - b := by
  unfold subSz
  have h1 : SZMOD + a - b = SZMOD + (a - b) := by omega
  rw [h1, Nat.add_mod_left, Nat.mod_eq_of_lt (by omega)]

theorem addSz_eq_of_lt {a b : Nat} (h : a + b < SZMOD) : addSz a b = a + b :=
  Nat.mod_eq_of_lt h

theorem le_incr_rate (c : Nat) : c ≤ c * 6 / 5 := by
  rw [Nat.le_div_iff_mul_le (by omega)]
  omega

theorem succ_le_incr_rate {c : Nat} (h : 5 ≤ c) : c + 1 ≤ c * 6 / 5 := by
  rw [Nat.le_div_iff_mul_le (by omega)]
  omega

theorem incr_rate_le {c b : Nat} (h : c ≤ b) : c * 6 / 5 ≤ b * 6 / 5 :=
  Nat.div_le_div_right (by omega)

theorem memcpyAt_length {dst src : List Nat} {pos : Nat}
    (h : pos + src.length ≤ dst.length) : (memcpyAt dst pos src).length = dst.length := by
  unfold memcpyAt
  simp only [List.length_append, List.length_take, List.length_drop]
  omega

theorem memcpyAt_take {dst src : List Nat} {pos n : Nat} (hn : n ≤ pos)
    (hpos : pos ≤ dst.length) : (memcpyAt dst pos src).take n = dst.take n := by
  unfold memcpyAt
  rw [List.append_assoc, List.take_append_of_le_length (by simp; omega), List.take_take,
    Nat.min_eq_left hn]

theorem memcpyAt_drop_take {dst src : List Nat} {pos : Nat} (hpos : pos ≤ dst.length) :
    ((memcpyAt dst pos src).drop pos).take src.length = src := by
  unfold memcpyAt
  rw [List.append_assoc]
  have hlen : (dst.take pos).length = pos := by simp; omega
  rw [List.drop_left' hlen, List.take_left]

/-! ### Properties of the growth loop -/

theorem s_buf_stream_incr_buf_length {s : BufStream} (hwf : WF s) :
    (s_buf_stream_incr s).buf.length = s.capacity * 6 / 5 := by
  obtain ⟨hb, hc, hl⟩ := hwf
  have h1 : s.length ≤ s.capacity * 6 / 5 := le_trans hl (le_incr_rate _)
  unfold s_buf_stream_incr
  simp only [List.length_append, List.length_take, List.length_replicate]
  omega

theorem s_buf_stream_incr_wf {s : BufStream} (hwf : WF s) : WF (s_buf_stream_incr s) := by
  obtain ⟨hb, hc, hl⟩ := hwf
  refine ⟨s_buf_stream_incr_buf_length ⟨hb, hc, hl⟩, ?_, ?_⟩ <;>
    exact le_trans (by assumption) (le_incr_rate _)

theorem s_buf_stream_incr_take {s : BufStream} (hwf : WF s) :
    (s_buf_stream_incr s).buf.take s.length = s.buf.take s.length := by
  obtain ⟨hb, hc, hl⟩ := hwf
  unfold s_buf_stream_incr
  simp only
  rw [List.take_append_of_le_length (by simp; omega), List.take_take, Nat.min_self]

theorem s_buf_stream_incr_drop {s : BufStream} (hwf : WF s) :
    (s_buf_stream_incr s).buf.drop s.length =
      List.replicate ((s_buf_stream_incr s).capacity - s.length) 0 := by
  obtain ⟨hb, hc, hl⟩ := hwf
  unfold s_buf_stream_incr
  simp only
  have hlen : (s.buf.take s.length).length = s.length := by simp; omega
  rw [List.drop_left' hlen]

/-- Invariant carried through the `do/while` growth loop of `buf_stream_write`:
fields other than the storage stay put, the capacity stays bounded, the loop
exits only once `count` bytes fit after the cursor, the first `length` bytes
survive, and if any growth happened the tail beyond `length` is zero-filled. -/
theorem growLoop_inv : ∀ (fuel : Nat) (s : BufStream) (count : Nat) (s' : BufStream),
    WF s → s.capacity ≤ 2 ^ 51 → s.curr + count ≤ 2 ^ 50 →
    growLoop fuel s count = some s' →
    WF s' ∧ s'.capacity ≤ 2 ^ 51 ∧ s'.curr = s.curr ∧ s'.length = s.length ∧
      s.incr_count ≤ s'.incr_count ∧ count ≤ s'.capacity - s'.curr ∧
      s'.buf.take s.length = s.buf.take s.length ∧
      (s' = s ∨ s'.buf.drop s.length = List.replicate (s'.capacity - s.length) 0) ∧
      (subSz s.capacity s.curr < count → s.incr_count < s'.incr_count) := by
  intro fuel
  induction fuel with
  | zero => intro s count s' _ _ _ h; exact absurd h (by simp [growLoop])
  | succ fuel ih =>
    intro s count s' hwf hcap hfit h
    rw [growLoop] at h
    by_cases hgrow : subSz s.capacity s.curr < count
    · rw [if_pos hgrow] at h
      obtain ⟨hb, hc, hl⟩ := hwf
      have hszlt : s.capacity < SZMOD := lt_of_le_of_lt hcap (by norm_num [SZMOD])
      have hrem : subSz s.capacity s.curr = s.capacity - s.curr := subSz_eq_of_le hc hszlt
      have hcapcc : s.capacity < s.curr + count := by omega
      have hwf1 : WF (s_buf_stream_incr s) := s_buf_stream_incr_wf ⟨hb, hc, hl⟩
      have hcap1 : (s_buf_stream_incr s).capacity ≤ 2 ^ 51 := by
        have h1 : s.capacity * 6 / 5 ≤ 2 ^ 50 * 6 / 5 := incr_rate_le (by omega)
        have h2 : 2 ^ 50 * 6 / 5 ≤ 2 ^ 51 := by norm_num
        exact le_trans h1 h2
      have hfit1 : (s_buf_stream_incr s).curr + count ≤ 2 ^ 50 := hfit
      obtain ⟨iwf, icap, icurr, ilen, iincr, ifit, itake, izero, _⟩ :=
        ih (s_buf_stream_incr s) count s' hwf1 hcap1 hfit1 h
      have hlen1 : (s_buf_stream_incr s).length = s.length := rfl
      have hcurr1 : (s_buf_stream_incr s).curr = s.curr := rfl
      have hincr1 : (s_buf_stream_incr s).incr_count = s.incr_count + 1 := rfl
      refine ⟨iwf, icap, icurr.trans hcurr1, ilen.trans hlen1, by omega, ifit, ?_, ?_,
        fun _ => by omega⟩
      · rw [← hlen1, itake, hlen1, s_buf_stream_incr_take ⟨hb, hc, hl⟩]
      · right
        rcases izero with hz | hz
        · rw [hz]
          exact s_buf_stream_incr_drop ⟨hb, hc, hl⟩
        · rw [← hlen1]
          exact hz
    · rw [if_neg hgrow] at h
      obtain rfl : s = s' := by injection h
      exact ⟨hwf, hcap, rfl, rfl, le_refl _, by
          obtain ⟨hb, hc, hl⟩ := hwf
          have hszlt : s.capacity < SZMOD := lt_of_le_of_lt hcap (by norm_num [SZMOD])
          rw [subSz_eq_of_le hc hszlt] at hgrow
          omega,
        rfl, Or.inl rfl, fun hcon => absurd hcon hgrow⟩

/-- A successful growth-loop run multiplies the capacity by 6/5 (floored) some
number of times — at least once when growth was needed. -/
theorem growLoop_capacity_iterate :
    ∀ (fuel : Nat) (s : BufStream) (count : Nat) (s' : BufStream),
    growLoop fuel s count = some s' →
    ∃ k : Nat, s'.capacity = (fun c => c * 6 / 5)^[k] s.capacity ∧
      (subSz s.capacity s.curr < count → 0 < k) := by
  intro fuel
  induction fuel with
  | zero => intro s count s' h; exact absurd h (by simp [growLoop])
  | succ fuel ih =>
    intro s count s' h
    rw [growLoop] at h
    by_cases hgrow : subSz s.capacity s.curr < count
    · rw [if_pos hgrow] at h
      obtain ⟨k, hk, _⟩ := ih _ count s' h
      refine ⟨k + 1, ?_, fun _ => Nat.succ_pos k⟩
      rw [Function.iterate_succ_apply]
      exact hk
    · rw [if_neg hgrow] at h
      obtain rfl : s = s' := by injection h
      exact ⟨0, rfl, fun hc => absurd hc hgrow⟩

/-- Termination of the growth loop when the capacity is at least 5: each
iteration then strictly increases the capacity. -/
theorem growLoop_term : ∀ (fuel : Nat) (s : BufStream) (count : Nat),
    5 ≤ s.capacity → s.curr ≤ s.capacity → s.capacity ≤ 2 ^ 51 →
    s.curr + count ≤ 2 ^ 50 → s.curr + count ≤ s.capacity + fuel →
    ∃ s', growLoop (fuel + 1) s count = some s' := by
  intro fuel
  induction fuel with
  | zero =>
    intro s count h5 hc hcap hfit hbound
    refine ⟨s, ?_⟩
    rw [growLoop, if_neg ?_]
    rw [subSz_eq_of_le hc (lt_of_le_of_lt hcap (by norm_num [SZMOD]))]
    omega
  | succ fuel ih =>
    intro s count h5 hc hcap hfit hbound
    by_cases hgrow : subSz s.capacity s.curr < count
    · have hrem : subSz s.capacity s.curr = s.capacity - s.curr :=
        subSz_eq_of_le hc (lt_of_le_of_lt hcap (by norm_num [SZMOD]))
      have h1 : s.capacity + 1 ≤ s.capacity * 6 / 5 := succ_le_incr_rate h5
      have hcurr1 : (s_buf_stream_incr s).curr = s.curr := rfl
      have hcap1 : (s_buf_stream_incr s).capacity = s.capacity * 6 / 5 := rfl
      have hcap51 : s.capacity * 6 / 5 ≤ 2 ^ 51 := by
        calc s.capacity * 6 / 5 ≤ 2 ^ 50 * 6 / 5 := incr_rate_le (by omega)
        _ ≤ 2 ^ 51 := by norm_num
      obtain ⟨s', hs'⟩ := ih (s_buf_stream_incr s) count
        (by rw [hcap1]; exact le_trans h5 (le_incr_rate _))
        (by rw [hcurr1, hcap1]; exact le_trans hc (le_incr_rate _))
        (by rw [hcap1]; exact hcap51)
        (by rw [hcurr1]; exact hfit)
        (by rw [hcurr1, hcap1]; omega)
      refine ⟨s', ?_⟩
      rw [growLoop, if_pos hgrow]
      exact hs'
    · exact ⟨s, by rw [growLoop, if_neg hgrow]⟩

/-- With capacity 0 (and the cursor at 0) the growth step leaves the capacity
at 0 forever, so the loop never exits once at least one byte is requested. -/
theorem growLoop_zero_cap : ∀ (fuel : Nat) (s : BufStream) (count : Nat),
    s.capacity = 0 → s.curr = 0 → 0 < count → growLoop fuel s count = none := by
  intro fuel
  induction fuel with
  | zero => intro s count _ _ _; rfl
  | succ fuel ih =>
    intro s count hcap hcurr hcount
    have hsub : subSz s.capacity s.curr < count := by
      rw [hcap, hcurr]
      have h0 : subSz 0 0 = 0 := by simp [subSz, Nat.mod_self]
      omega
    rw [growLoop, if_pos hsub]
    exact ih (s_buf_stream_incr s) count
      (by show s.capacity * 6 / 5 = 0; rw [hcap])
      (by show s.curr = 0; exact hcurr)
      hcount

/-! ### Claim theorems -/

/-- C10: after every completed `buf_stream_write` the cursor equals the logical
length, regardless of where the cursor was before the write — the code sets
`length = curr + count` and then advances `curr` by the same `count`. -/
theorem claim_C10_write_cursor_eq_length (fuel : Nat) (s : BufStream) (src : List Nat)
    (s' : BufStream) (h : buf_stream_write fuel s src = some s') :
    s'.curr = s'.length := by
  unfold buf_stream_write at h
  cases hg : growLoop fuel s src.length with
  | none => rw [hg] at h; exact absurd h (by simp)
  | some s1 =>
    rw [hg] at h
    injection h with h'
    rw [← h']

/-- Witness for C10: a concrete completed write, cursor = length afterwards. -/
theorem claim_C10_witness :
    buf_stream_write 3 (buf_stream_new_empty [0, 0, 0, 0]) [9, 9] =
      some ⟨[9, 9, 0, 0], 2, 2, 4, 0⟩ ∧
    (⟨[9, 9, 0, 0], 2, 2, 4, 0⟩ : BufStream).curr =
      (⟨[9, 9, 0, 0], 2, 2, 4, 0⟩ : BufStream).length :=
  ⟨by decide,
   claim_C10_write_cursor_eq_length 3 (buf_stream_new_empty [0, 0, 0, 0]) [9, 9]
     ⟨[9, 9, 0, 0], 2, 2, 4, 0⟩ (by decide)⟩

/-- C4 counterexample: `seek(2, End)` on a stream with cursor 3 and length 10
moves the cursor to `3 - 2 = 1`, not to `length - offset = 8`: the C code
subtracts the offset from the CURSOR (`stream->curr -= (size_t) offset`,
line 166), not from the length. -/
theorem claim_C4_counterexample :
    (buf_stream_seek ⟨List.replicate 10 0, 3, 10, 10, 0⟩ 2 .End).curr = 1 ∧
      (1 : Nat) ≠ 10 - 2 :=
  ⟨by decide, by decide⟩

/-- C4 amended: seek with Begin sets `cursor = offset`, with Current sets
`cursor = cursor + offset`, and with End sets `cursor = cursor - offset`
(stated for in-range values of the wrap-around `size_t` arithmetic); no
origin clamps the cursor and nothing but the cursor changes. -/
theorem claim_C4_amended (s : BufStream) (offset : Int) (h0 : 0 ≤ offset)
    (h63 : offset < 2 ^ 63) :
    ((buf_stream_seek s offset .Begin).curr = offset.toNat) ∧
    (s.curr + offset.toNat < SZMOD →
      (buf_stream_seek s offset .Current).curr = s.curr + offset.toNat) ∧
    (offset.toNat ≤ s.curr → s.curr < SZMOD →
      (buf_stream_seek s offset .End).curr = s.curr - offset.toNat) ∧
    (∀ origin : WrapperSeekOrigin,
      (buf_stream_seek s offset origin).buf = s.buf ∧
      (buf_stream_seek s offset origin).length = s.length ∧
      (buf_stream_seek s offset origin).capacity = s.capacity) := by
  have hlt : offset < (SZMOD : Int) := by
    have h2 : ((2 : Int) ^ 63) < ((SZMOD : Nat) : Int) := by norm_num [SZMOD]
    omega
  have hsz : szOfInt offset = offset.toNat := by
    unfold szOfInt
    rw [Int.emod_eq_of_lt h0 hlt]
  refine ⟨?_, ?_, ?_, ?_⟩
  · show szOfInt offset = offset.toNat
    exact hsz
  · intro hbound
    show addSz s.curr (szOfInt offset) = s.curr + offset.toNat
    rw [hsz]
    exact addSz_eq_of_lt hbound
  · intro hle hcurr
    show subSz s.curr (szOfInt offset) = s.curr - offset.toNat
    rw [hsz]
    exact subSz_eq_of_le hle hcurr
  · intro origin
    cases origin <;> exact ⟨rfl, rfl, rfl⟩

/-- Witness for C4 (amended) at offset 4, origin Current, cursor 6. -/
theorem claim_C4_witness :
    ((0 : Int) ≤ 4 ∧ (4 : Int) < 2 ^ 63 ∧ 6 + (4 : Int).toNat < SZMOD) ∧
    (buf_stream_seek ⟨List.replicate 10 0, 6, 10, 10, 0⟩ 4 .Current).curr =
      6 + (4 : Int).toNat :=
  ⟨⟨by decide, by decide, by decide⟩,
   (claim_C4_amended ⟨List.replicate 10 0, 6, 10, 10, 0⟩ 4 (by decide) (by decide)).2.1
     (by decide)⟩

/-- C3 counterexample: on a stream holding 10 logical bytes, seeking back to 0
and writing 3 bytes leaves `length = 3` (the C sets `length = curr + count`
unconditionally, line 145/149), not `max 10 3 = 10` as claimed. -/
theorem claim_C3_counterexample :
    (buf_stream_write 2
        (buf_stream_seek ⟨[1, 2, 3, 4, 5, 6, 7, 8, 9, 10, 0, 0, 0, 0, 0, 0], 10, 10, 16, 0⟩
          0 .Begin)
        [7, 7, 7]).map (fun t => t.length) = some 3 ∧
      (3 : Nat) ≠ max 10 3 :=
  ⟨by decide, by decide⟩

/-- C3 amended: a completed write copies the span's bytes at the cursor,
advances the cursor by the span size, and sets the logical length to the new
cursor position `curr + count` UNCONDITIONALLY — so a write that ends before
the old length shrinks the length instead of keeping `max(length, cursor)`. -/
theorem claim_C3_amended (fuel : Nat) (s : BufStream) (src : List Nat) (s' : BufStream)
    (hwf : WF s) (hcap : s.capacity ≤ 2 ^ 51) (hfit : s.curr + src.length ≤ 2 ^ 50)
    (h : buf_stream_write fuel s src = some s') :
    s'.curr = s.curr + src.length ∧ s'.length = s.curr + src.length ∧
    (s'.buf.drop s.curr).take src.length = src ∧
    s'.buf.take (min s.curr s.length) = s.buf.take (min s.curr s.length) := by
  unfold buf_stream_write at h
  cases hg : growLoop fuel s src.length with
  | none => rw [hg] at h; exact absurd h (by simp)
  | some s1 =>
    rw [hg] at h
    obtain ⟨iwf, icap, icurr, ilen, _, ifit, itake, _, _⟩ :=
      growLoop_inv fuel s src.length s1 hwf hcap hfit hg
    obtain ⟨hb1, hc1, hl1⟩ := iwf
    injection h with h'
    subst h'
    have hadd : addSz s1.curr src.length = s.curr + src.length := by
      rw [icurr]
      exact addSz_eq_of_lt (lt_of_le_of_lt hfit (by norm_num [SZMOD]))
    have hpos : s1.curr ≤ s1.buf.length := by rw [hb1]; exact hc1
    refine ⟨hadd, hadd, ?_, ?_⟩
    · show ((memcpyAt s1.buf s1.curr src).drop s.curr).take src.length = src
      rw [← icurr]
      exact memcpyAt_drop_take hpos
    · show (memcpyAt s1.buf s1.curr src).take (min s.curr s.length) =
        s.buf.take (min s.curr s.length)
      have hm : min s.curr s.length ≤ s1.curr := by rw [icurr]; exact min_le_left _ _
      rw [memcpyAt_take hm hpos]
      have hml : min s.curr s.length ≤ s.length := min_le_right _ _
      calc s1.buf.take (min s.curr s.length)
          = (s1.buf.take s.length).take (min s.curr s.length) := by
            rw [List.take_take, Nat.min_eq_left hml]
        _ = (s.buf.take s.length).take (min s.curr s.length) := by rw [itake]
        _ = s.buf.take (min s.curr s.length) := by
            rw [List.take_take, Nat.min_eq_left hml]

/-- Witness for C3 (amended) at a concrete in-capacity write. -/
theorem claim_C3_witness :
    (WF ⟨[0, 0, 0, 0], 0, 0, 4, 0⟩ ∧
     buf_stream_write 1 ⟨[0, 0, 0, 0], 0, 0, 4, 0⟩ [5, 6] =
       some ⟨[5, 6, 0, 0], 2, 2, 4, 0⟩) ∧
    ((⟨[5, 6, 0, 0], 2, 2, 4, 0⟩ : BufStream).curr = 2 ∧
     (⟨[5, 6, 0, 0], 2, 2, 4, 0⟩ : BufStream).length = 2 ∧
     ((⟨[5, 6, 0, 0], 2, 2, 4, 0⟩ : BufStream).buf.drop 0).take 2 = [5, 6] ∧
     (⟨[5, 6, 0, 0], 2, 2, 4, 0⟩ : BufStream).buf.take (min 0 0) =
       (⟨[0, 0, 0, 0], 0, 0, 4, 0⟩ : BufStream).buf.take (min 0 0)) :=
  ⟨⟨by decide, by decide⟩,
   claim_C3_amended 1 ⟨[0, 0, 0, 0], 0, 0, 4, 0⟩ [5, 6] ⟨[5, 6, 0, 0], 2, 2, 4, 0⟩
     (by decide) (by decide) (by decide) (by decide)⟩

/-- C5 counterexample: starting from capacity 10 with a 100-byte deficit, the
loop grows 10 → 12 → … → 105 and stops at capacity 105, not at
`max(10 * 1.2, 10 + 100) = 110` as the claim's growth formula states. -/
theorem claim_C5_counterexample :
    (growLoop 50 ⟨List.replicate 10 0, 0, 0, 10, 0⟩ 100).map (fun t => t.capacity) =
      some 105 ∧
    (105 : Nat) ≠ max (10 * 6 / 5) (10 + 100) :=
  ⟨by decide, by decide⟩

/-- C5 amended: when a write needs more room (`capacity - cursor < count`) the
storage capacity is grown by REPEATEDLY replacing it with
`(size_t)(capacity * 1.2) = capacity * 6 / 5` until `capacity - cursor ≥ count`
(never by jumping to `max(capacity * 1.2, capacity + count)`); the bytes in
`[0, length)` are preserved across the growth and the region beyond `length`
is zero-filled; cursor and length are untouched. -/
theorem claim_C5_amended (fuel : Nat) (s : BufStream) (count : Nat) (s' : BufStream)
    (hwf : WF s) (hcap : s.capacity ≤ 2 ^ 51) (hfit : s.curr + count ≤ 2 ^ 50)
    (hneed : subSz s.capacity s.curr < count)
    (h : growLoop fuel s count = some s') :
    count ≤ s'.capacity - s'.curr ∧
    s'.buf.take s.length = s.buf.take s.length ∧
    s'.buf.drop s.length = List.replicate (s'.capacity - s.length) 0 ∧
    s'.curr = s.curr ∧ s'.length = s.length ∧
    ∃ k : Nat, 0 < k ∧ s'.capacity = (fun c => c * 6 / 5)^[k] s.capacity := by
  obtain ⟨iwf, icap, icurr, ilen, iincr, ifit, itake, izero, istrict⟩ :=
    growLoop_inv fuel s count s' hwf hcap hfit h
  obtain ⟨k, hk1, hk2⟩ := growLoop_capacity_iterate fuel s count s' h
  rcases izero with hz | hz
  · have hlt := istrict hneed
    rw [hz] at hlt
    omega
  · exact ⟨ifit, itake, hz, icurr, ilen, k, hk2 hneed, hk1⟩

/-- Witness for C5 (amended): the concrete growth run of the counterexample,
10 → 105 in 14 steps, preserving the (empty) prefix and zero-filling. -/
theorem claim_C5_witness :
    (WF ⟨List.replicate 10 0, 0, 0, 10, 0⟩ ∧
     subSz 10 0 < 100 ∧
     growLoop 50 ⟨List.replicate 10 0, 0, 0, 10, 0⟩ 100 =
       some ⟨List.replicate 105 0, 0, 0, 105, 14⟩) ∧
    (100 ≤ 105 - 0 ∧
     (⟨List.replicate 105 0, 0, 0, 105, 14⟩ : BufStream).buf.take 0 =
       (⟨List.replicate 10 0, 0, 0, 10, 0⟩ : BufStream).buf.take 0 ∧
     (⟨List.replicate 105 0, 0, 0, 105, 14⟩ : BufStream).buf.drop 0 =
       List.replicate (105 - 0) 0 ∧
     (0 : Nat) = 0 ∧ (0 : Nat) = 0 ∧
     ∃ k : Nat, 0 < k ∧ (105 : Nat) = (fun c => c * 6 / 5)^[k] 10) :=
  ⟨⟨by decide, by decide, by decide⟩,
   claim_C5_amended 50 ⟨List.replicate 10 0, 0, 0, 10, 0⟩ 100
     ⟨List.replicate 105 0, 0, 0, 105, 14⟩
     (by decide) (by decide) (by decide) (by decide) (by decide)⟩

/-- C6 counterexample: the claim fails for a stream created empty with initial
capacity 0 — `(size_t)(0 * 1.2) = 0`, so the growth loop inside a 1-byte
write never exits: no amount of fuel completes the write. -/
theorem claim_C6_counterexample :
    ¬ ∃ (fuel : Nat) (s' : BufStream),
        buf_stream_write fuel (buf_stream_new_empty []) [42] = some s' := by
  rintro ⟨fuel, s', h⟩
  unfold buf_stream_write at h
  rw [growLoop_zero_cap fuel (buf_stream_new_empty []) ([42] : List Nat).length rfl rfl
    (by simp)] at h
  exact absurd h (by simp)

/-- C6 amended: the growth loop of write terminates whenever the stream's
capacity is at least 5 (each growth step then strictly increases the
capacity); streams of capacity ≤ 4 that need growth loop forever. -/
theorem claim_C6_amended (s : BufStream) (src : List Nat) (hwf : WF s)
    (h5 : 5 ≤ s.capacity) (hcap : s.capacity ≤ 2 ^ 51)
    (hfit : s.curr + src.length ≤ 2 ^ 50) :
    ∃ (fuel : Nat) (s' : BufStream), buf_stream_write fuel s src = some s' := by
  obtain ⟨hb, hc, hl⟩ := hwf
  obtain ⟨s1, hs1⟩ :=
    growLoop_term (s.curr + src.length) s src.length h5 hc hcap hfit (by omega)
  refine ⟨s.curr + src.length + 1,
    { s1 with
        buf := memcpyAt s1.buf s1.curr src,
        length := addSz s1.curr src.length,
        curr := addSz s1.curr src.length }, ?_⟩
  unfold buf_stream_write
  rw [hs1]

/-- Witness for C6 (amended): a 7-byte write on a capacity-5 stream (which
needs two growth steps, 5 → 6 → 7) completes. -/
theorem claim_C6_witness :
    (WF ⟨List.replicate 5 0, 0, 0, 5, 0⟩ ∧ 5 ≤ 5) ∧
    ∃ (fuel : Nat) (s' : BufStream),
      buf_stream_write fuel ⟨List.replicate 5 0, 0, 0, 5, 0⟩ [1, 2, 3, 4, 5, 6, 7] =
        some s' :=
  ⟨⟨by decide, by decide⟩,
   claim_C6_amended ⟨List.replicate 5 0, 0, 0, 5, 0⟩ [1, 2, 3, 4, 5, 6, 7]
     (by decide) (by decide) (by decide) (by decide)⟩

theorem toInt32_eq_of_lt {n : Nat} (h : n < 2 ^ 31) : toInt32 n = (n : Int) := by
  unfold toInt32
  have h32 : n % 2 ^ 32 = n := Nat.mod_eq_of_lt (by omega)
  rw [h32, if_pos h]

theorem szOfInt_natCast {n : Nat} (h : n < SZMOD) : szOfInt (n : Int) = n := by
  unfold szOfInt
  rw [Int.emod_eq_of_lt (by positivity) (by exact_mod_cast h)]
  simp

/-- C7: below EOF, read copies exactly `min(count, length - cursor)` bytes
starting at the cursor into the destination at `offset`, advances the cursor
by that amount (never past `length`) and returns that amount; at EOF
(`cursor ≥ length`) it returns 0 and leaves stream and destination unchanged,
so repeated reads at EOF keep returning 0.  (Stated for non-negative `gint32`
counts and lengths below 2^31, where the `(gint32) remained` cast in the C is
value-preserving.) -/
theorem claim_C7_read (s : BufStream) (dest : List Nat) (offset : Nat) (count : Int)
    (hlen : s.length < 2 ^ 31) (h0 : 0 ≤ count) (h31 : count < 2 ^ 31) :
    (s.length ≤ s.curr → buf_stream_read s dest offset count = (s, dest, 0)) ∧
    (s.curr < s.length →
      buf_stream_read s dest offset count =
        ({ s with curr := s.curr + min count.toNat (s.length - s.curr) },
         memcpyAt dest offset
           ((s.buf.drop s.curr).take (min count.toNat (s.length - s.curr))),
         ((min count.toNat (s.length - s.curr) : Nat) : Int)) ∧
      s.curr + min count.toNat (s.length - s.curr) ≤ s.length) := by
  constructor
  · intro h
    unfold buf_stream_read
    rw [if_pos h]
  · intro h
    have hm_le : s.curr + min count.toNat (s.length - s.curr) ≤ s.length := by omega
    refine ⟨?_, hm_le⟩
    have hszlt : s.length < SZMOD := by
      have h2 : (2 : Nat) ^ 31 < SZMOD := by norm_num [SZMOD]
      omega
    have hrem : subSz s.length s.curr = s.length - s.curr :=
      subSz_eq_of_le (le_of_lt h) hszlt
    have hrem31 : s.length - s.curr < 2 ^ 31 := by omega
    simp only [buf_stream_read, if_neg (not_le.mpr h), hrem, toInt32_eq_of_lt hrem31]
    by_cases hcle : count ≤ ((s.length - s.curr : Nat) : Int)
    · rw [if_pos hcle]
      have hctn : count.toNat ≤ s.length - s.curr := Int.toNat_le.mpr hcle
      have hmin : min count.toNat (s.length - s.curr) = count.toNat :=
        Nat.min_eq_left hctn
      have hsz : szOfInt count = count.toNat := by
        conv in szOfInt count => rw [← Int.toNat_of_nonneg h0]
        exact szOfInt_natCast (by omega)
      have hadd : addSz s.curr count.toNat = s.curr + count.toNat :=
        addSz_eq_of_lt (by omega)
      rw [hsz, hadd, hmin, Int.toNat_of_nonneg h0]
    · rw [if_neg hcle]
      have hcgt : s.length - s.curr < count.toNat := by
        rw [not_le] at hcle
        omega
      have hmin : min count.toNat (s.length - s.curr) = s.length - s.curr :=
        Nat.min_eq_right (le_of_lt hcgt)
      have hsz : szOfInt ((s.length - s.curr : Nat) : Int) = s.length - s.curr :=
        szOfInt_natCast (by omega)
      have hadd : addSz s.curr (s.length - s.curr) = s.curr + (s.length - s.curr) :=
        addSz_eq_of_lt (by omega)
      rw [hsz, hadd, hmin]

/-- Witness for C7: reading 2 bytes at cursor 1 of a 5-byte stream into
position 1 of a 4-byte destination. -/
theorem claim_C7_witness :
    ((⟨[1, 2, 3, 4, 5], 1, 5, 5, 0⟩ : BufStream).length < 2 ^ 31 ∧ (0 : Int) ≤ 2 ∧
      (2 : Int) < 2 ^ 31 ∧ (1 : Nat) < 5) ∧
    (buf_stream_read ⟨[1, 2, 3, 4, 5], 1, 5, 5, 0⟩ [0, 0, 0, 0] 1 2 =
        (⟨[1, 2, 3, 4, 5], 3, 5, 5, 0⟩, [0, 2, 3, 0], 2) ∧
      1 + min (2 : Int).toNat (5 - 1) ≤ 5) :=
  ⟨⟨by decide, by decide, by decide, by decide⟩,
   (claim_C7_read ⟨[1, 2, 3, 4, 5], 1, 5, 5, 0⟩ [0, 0, 0, 0] 1 2
      (by decide) (by decide) (by decide)).2 (by decide)⟩

/-- C8: in the GPS encoder the altitude reference is "1" (below sea level)
exactly when `alt < 0` and "0" (above sea level) exactly when `alt ≥ 0` — so
exactly 0 resolves to "above"; the latitude reference is "S" exactly when
`lat < 0`, else "N"; the longitude reference is "W" exactly when `lon < 0`,
else "E"; and the emitted degree/minute/second values and the altitude
magnitude are invariant under negating the corresponding input, i.e. depend
only on its absolute value. -/
theorem claim_C8_gps_encoder (hasV : Bool) (lat lon alt : ℚ) :
    ((s_try_update_gps_info hasV lat lon alt).altRef = "1" ↔ alt < 0) ∧
    ((s_try_update_gps_info hasV lat lon alt).altRef = "0" ↔ 0 ≤ alt) ∧
    ((s_try_update_gps_info hasV lat lon alt).latRef = "S" ↔ lat < 0) ∧
    ((s_try_update_gps_info hasV lat lon alt).latRef = "N" ↔ 0 ≤ lat) ∧
    ((s_try_update_gps_info hasV lat lon alt).lonRef = "W" ↔ lon < 0) ∧
    ((s_try_update_gps_info hasV lat lon alt).lonRef = "E" ↔ 0 ≤ lon) ∧
    (s_try_update_gps_info hasV (-lat) lon alt).latDeg =
      (s_try_update_gps_info hasV lat lon alt).latDeg ∧
    (s_try_update_gps_info hasV (-lat) lon alt).latMin =
      (s_try_update_gps_info hasV lat lon alt).latMin ∧
    (s_try_update_gps_info hasV (-lat) lon alt).latSec =
      (s_try_update_gps_info hasV lat lon alt).latSec ∧
    (s_try_update_gps_info hasV lat (-lon) alt).lonDeg =
      (s_try_update_gps_info hasV lat lon alt).lonDeg ∧
    (s_try_update_gps_info hasV lat (-lon) alt).lonMin =
      (s_try_update_gps_info hasV lat lon alt).lonMin ∧
    (s_try_update_gps_info hasV lat (-lon) alt).lonSec =
      (s_try_update_gps_info hasV lat lon alt).lonSec ∧
    (s_try_update_gps_info hasV lat lon (-alt)).altAbs =
      (s_try_update_gps_info hasV lat lon alt).altAbs ∧
    (s_try_update_gps_info hasV lat lon alt).altAbs = |alt| := by
  have h10 : ¬ (("1" : String) = "0") := by decide
  have h01 : ¬ (("0" : String) = "1") := by decide
  have hSN : ¬ (("S" : String) = "N") := by decide
  have hNS : ¬ (("N" : String) = "S") := by decide
  have hWE : ¬ (("W" : String) = "E") := by decide
  have hEW : ¬ (("E" : String) = "W") := by decide
  unfold s_try_update_gps_info
  simp only
  refine ⟨?_, ?_, ?_, ?_, ?_, ?_, by rw [abs_neg], by rw [abs_neg], by rw [abs_neg],
    by rw [abs_neg], by rw [abs_neg], by rw [abs_neg], by rw [abs_neg], by simp⟩
  · by_cases hx : alt < 0
    · rw [if_pos hx]; exact iff_of_true rfl hx
    · rw [if_neg hx]; exact iff_of_false h01 hx
  · by_cases hx : alt < 0
    · rw [if_pos hx]; exact iff_of_false h10 (not_le.mpr hx)
    · rw [if_neg hx]; exact iff_of_true rfl (not_lt.mp hx)
  · by_cases hx : lat < 0
    · rw [if_pos hx]; exact iff_of_true rfl hx
    · rw [if_neg hx]; exact iff_of_false hNS hx
  · by_cases hx : lat < 0
    · rw [if_pos hx]; exact iff_of_false hSN (not_le.mpr hx)
    · rw [if_neg hx]; exact iff_of_true rfl (not_lt.mp hx)
  · by_cases hx : lon < 0
    · rw [if_pos hx]; exact iff_of_true rfl hx
    · rw [if_neg hx]; exact iff_of_false hEW hx
  · by_cases hx : lon < 0
    · rw [if_pos hx]; exact iff_of_false hWE (not_le.mpr hx)
    · rw [if_neg hx]; exact iff_of_true rfl (not_lt.mp hx)

/-- C9 counterexample: with a non-empty EXIF dictionary, looking up the
well-formed but ABSENT key "Exif.Image.Model" returns a present empty string
(Exiv2's `operator[]` inserts a fresh value-less datum and its `toString()` is
the empty string), not the null absence sentinel the claim requires. -/
theorem claim_C9_counterexample :
    exif_get_tag_string (some ([], [("Exif.Image.Make", "Canon")]))
        (fun _ => true) "Exif.Image.Model" = some "" ∧
      some "" ≠ (none : Option String) :=
  ⟨by decide, by decide⟩

/-- C9 amended: tag lookup returns the null sentinel when the handle or image
is unset, when the selected dictionary is entirely empty, or when the key
throws during parsing — but a well-formed key that is merely absent from a
non-empty EXIF dictionary yields a present-but-empty string, so absence is
NOT distinguishable from an empty value in that case. -/
theorem claim_C9_amended (xmp exif : List (String × String)) (validKey : String → Bool)
    (tag : String) :
    (exif_get_tag_string none validKey tag = none) ∧
    (tag.data.take 4 ≠ "Xmp.".data → exif ≠ [] → validKey tag = true →
      exif.find? (fun kv => kv.1 = tag) = none →
      exif_get_tag_string (some (xmp, exif)) validKey tag = some "") := by
  refine ⟨rfl, ?_⟩
  intro hx he hv hf
  simp only [exif_get_tag_string]
  rw [if_neg hx]
  rw [if_neg (by simp [List.isEmpty_iff]; exact he)]
  rw [if_pos hv]
  unfold indexToString
  rw [hf]

/-- Witness for C9 (amended) at the counterexample's concrete dictionary. -/
theorem claim_C9_witness :
    (("Exif.Image.Model".data.take 4 ≠ "Xmp.".data) ∧
     ([("Exif.Image.Make", "Canon")] : List (String × String)) ≠ [] ∧
     (fun (_ : String) => true) "Exif.Image.Model" = true ∧
     ([("Exif.Image.Make", "Canon")] : List (String × String)).find?
       (fun kv => kv.1 = "Exif.Image.Model") = none) ∧
    exif_get_tag_string (some ([], [("Exif.Image.Make", "Canon")]))
      (fun _ => true) "Exif.Image.Model" = some "" :=
  ⟨⟨by decide, by decide, by decide, by decide⟩,
   (claim_C9_amended [] [("Exif.Image.Make", "Canon")] (fun _ => true)
      "Exif.Image.Model").2 (by decide) (by decide) (by decide) (by decide)⟩

/-- C1 (code bug): `s_buf_stream_new` allocates and fills the private copy —
it survives as a leaked heap block — but then stores the CALLER's pointer as
the stream's storage (`stream->buf = buf`, line 213): the stream retains the
caller's memory, and a subsequent stream write mutates it ([10,20,30] becomes
[99,20,30] after seeking to 0 and writing byte 99). -/
theorem claim_C1_code_bug :
    (PtrModel.s_buf_stream_new ⟨[10, 20, 30], [], false⟩ .caller 3 0 0 0).2.bufPtr =
        PtrModel.Ptr.caller ∧
    (PtrModel.s_buf_stream_new ⟨[10, 20, 30], [], false⟩ .caller 3 0 0 0).1.blocks =
        [some [10, 20, 30]] ∧
    (PtrModel.buf_stream_write 10
        (PtrModel.s_buf_stream_new ⟨[10, 20, 30], [], false⟩ .caller 3 0 0 0).1
        (PtrModel.buf_stream_seek
          (PtrModel.s_buf_stream_new ⟨[10, 20, 30], [], false⟩ .caller 3 0 0 0).2
          0 .Begin)
        [99]).map (fun ms => ms.1.caller) = some [99, 20, 30] ∧
    [99, 20, 30] ≠ ([10, 20, 30] : List Nat) :=
  ⟨by decide, by decide, by decide, by decide⟩

/-- C2 (code bug): when the save stage fails after the codec wrote one byte
through the stream, `native_add_gps_info` does return length 0 with the
output pointer unset — but the caller's input buffer HAS been mutated
([10,20,30] became [99,20,30]), because the stream's storage aliases the
caller's buffer (the C1 slip in `s_buf_stream_new`). -/
theorem claim_C2_code_bug :
    PtrModel.native_add_gps_info 10 ⟨[10, 20, 30], [], false⟩ .caller 3 0 0 0
        ⟨true, true, [.seek 0 .Begin, .write [99]], false⟩ =
      some (⟨[99, 20, 30], [some [10, 20, 30]], false⟩, 0, none) ∧
    [99, 20, 30] ≠ ([10, 20, 30] : List Nat) :=
  ⟨by decide, by decide⟩

end Kapy
